import Mathlib

/-!
Shallow embedding of the SSP change-dispensing and feasibility subsystem:
`SSP/managers/payment_algorithm_manager.py` (class PaymentAlgorithmManager)
and `SSP/managers/hopper_manager.py` (classes HopperController and
ChangeDispenser).  Python floats are modelled as rationals, Python ints as
Lean integers or naturals, and the database/settings reads are modelled as
explicit parameters (the Python code re-reads them on each call).
Human-facing reason strings are elided; only the boolean results and the
numeric payloads that the rest of the program consumes are modelled.
-/

namespace SSP

/-- Python's builtin `round` to an integer: round half to even
(banker's rounding), as applied by `round(change_amount)` and
`int(round(total_cost))` in the source. -/
def pythonRound (x : ℚ) : ℤ :=
  let n := Int.floor x
  let frac := x - (n : ℚ)
  if frac < 1/2 then n
  else if 1/2 < frac then n + 1
  else if n % 2 = 0 then n else n + 1

/-- Coin inventory as returned by `get_coin_inventory`: both denominations
are always present (missing entries default to 0), counts non-negative. -/
structure CoinInventory where
  coins1 : ℕ
  coins5 : ℕ

/-- Configuration read in `PaymentAlgorithmManager.__init__`:
`MIN_COIN_THRESHOLDS` (already clamped with `max(0, .)` in the source, hence ℕ)
and `MAX_CHANGE_LIMIT` (a float, default 50). -/
structure FeasibilityConfig where
  minThreshold1 : ℕ
  minThreshold5 : ℕ
  maxChangeLimit : ℚ

/-- Embeds `PaymentAlgorithmManager.calculate_change_breakdown`.
Returns the pair (coins_1, coins_5), mirroring the dict `{1: coins_1, 5: coins_5}`.
For positive input the Python code rounds to the nearest peso and then uses
integer floor-division and modulo; the rounded value is non-negative there,
so `Int.toNat` is exact. -/
def calculate_change_breakdown (change_amount : ℚ) : ℕ × ℕ :=
  if change_amount ≤ 0 then (0, 0)
  else
    let a := (pythonRound change_amount).toNat
    (a % 5, a / 5)

/-- Embeds the two checking loops of `PaymentAlgorithmManager.can_dispense_change`
over the already-computed `required_coins` pair (coins_1, coins_5).  The source
iterates denomination 1 first, then 5, first for raw sufficiency
(`available_count < required_count`) and then for the reserve thresholds
(enforced only when `threshold > 0`); `remaining_after_change` is only computed
after the sufficiency check passed, so natural subtraction is exact. -/
def checkInventory (cfg : FeasibilityConfig) (inv : CoinInventory)
    (required : ℕ × ℕ) : Bool × (ℕ × ℕ) :=
  if inv.coins1 < required.1 then (false, required)
  else if inv.coins5 < required.2 then (false, required)
  else if 0 < cfg.minThreshold1 ∧ inv.coins1 - required.1 < cfg.minThreshold1 then
    (false, required)
  else if 0 < cfg.minThreshold5 ∧ inv.coins5 - required.2 < cfg.minThreshold5 then
    (false, required)
  else (true, required)

/-- Embeds `PaymentAlgorithmManager.can_dispense_change`.
Returns (can_dispense, required_coins); the human-readable reason string is
elided.  `MAX_CHANGE_LIMIT` is deliberately not consulted (source comment:
"No artificial cap here; feasibility is determined by inventory below"). -/
def can_dispense_change (cfg : FeasibilityConfig) (inv : CoinInventory)
    (change_amount : ℚ) : Bool × (ℕ × ℕ) :=
  if change_amount ≤ 0 then (true, (0, 0))
  else checkInventory cfg inv (calculate_change_breakdown change_amount)

/-- Accepted tender denominations in `find_best_payment_amount`
(`accepted = [1, 5, 10, 20, 50, 100]`). -/
def acceptedDenominations : List ℤ := [1, 5, 10, 20, 50, 100]

/-- Embeds the downward scan `for change in range(max_possible_change, -1, -1)`
of `find_best_payment_amount`: the first (largest) value accepted by
`can_dispense_change` becomes `best_change`.  The loop always terminates with
a hit because change 0 is trivially dispensable, so stopping at 0 without a
test is equivalent to the source loop (which would set `best_change = 0`
there anyway). -/
def scanBestChange (cfg : FeasibilityConfig) (inv : CoinInventory) : ℕ → ℕ
  | 0 => 0
  | n + 1 =>
    if (can_dispense_change cfg inv ((n + 1 : ℕ) : ℚ)).1 then n + 1
    else scanBestChange cfg inv n

/-- Embeds the `for d in reversed(viable)` selection loop of
`find_best_payment_amount`: walk the candidate denominations from the
largest down, skip `change_needed < 0`, and take the first whose change is
dispensable, together with its required coins.  (The source binds the result
of the single `can_dispense_change` call to a local; the call is pure, so it
is written out twice here.) -/
def chooseLargest (cfg : FeasibilityConfig) (inv : CoinInventory) (base : ℤ) :
    List ℤ → Option (ℤ × (ℕ × ℕ))
  | [] => none
  | d :: rest =>
    if d - base < 0 then chooseLargest cfg inv base rest
    else
      if (can_dispense_change cfg inv ((d - base : ℤ) : ℚ)).1 then
        some (d, (can_dispense_change cfg inv ((d - base : ℤ) : ℚ)).2)
      else chooseLargest cfg inv base rest

/-- Result record of `find_best_payment_amount`
(`{'amount': .., 'change': .., 'required_coins': ..}`, reason elided);
required_coins is the pair (coins_1, coins_5). -/
structure PaymentSuggestion where
  amount : ℚ
  change : ℚ
  required_coins : ℕ × ℕ
  deriving DecidableEq, Repr

/-- The dynamic maximum change of `find_best_payment_amount`:
`available_5 = max(0, inv5 - th5 if th5 > 0 else 0)` and likewise for ones
(natural subtraction models the `max(0, .)`), then
`max_possible_change = 5*available_5 + available_1`. -/
def maxPossibleChange (cfg : FeasibilityConfig) (inv : CoinInventory) : ℕ :=
  let available5 := inv.coins5 - (if 0 < cfg.minThreshold5 then cfg.minThreshold5 else 0)
  let available1 := inv.coins1 - (if 0 < cfg.minThreshold1 then cfg.minThreshold1 else 0)
  5 * available5 + available1

/-- Embeds `PaymentAlgorithmManager.find_best_payment_amount`.
`base = int(round(total_cost))`; the viable list is
`[d for d in accepted if d >= base and d <= ceiling]` — the source sorts it,
but the accepted list is already ascending so the sort is the identity and the
reversed traversal is done by `chooseLargest` on the reversed filtered list. -/
def find_best_payment_amount (cfg : FeasibilityConfig) (inv : CoinInventory)
    (total_cost : ℚ) : PaymentSuggestion :=
  let max_possible_change := maxPossibleChange cfg inv
  let base : ℤ := pythonRound total_cost
  let best_change := scanBestChange cfg inv max_possible_change
  if best_change = 0 then
    { amount := (base : ℚ), change := 0, required_coins := (0, 0) }
  else
    let ceiling : ℤ := base + (best_change : ℤ)
    let viable := acceptedDenominations.filter (fun d => base ≤ d ∧ d ≤ ceiling)
    match chooseLargest cfg inv base viable.reverse with
    | none => { amount := (base : ℚ), change := 0, required_coins := (0, 0) }
    | some (d, req) =>
      { amount := (d : ℚ), change := ((d - base : ℤ) : ℚ), required_coins := req }

/-- Proof-side helper: `can_dispense_change` specialised to a whole (natural)
change amount.  `can_dispense_change_natCast` below shows it agrees with the
rational-valued source function on cast inputs; it exists so that concrete
instances can be settled by kernel evaluation, which does not reduce rational
arithmetic. -/
def canDispenseNat (cfg : FeasibilityConfig) (inv : CoinInventory) (n : ℕ) :
    Bool × (ℕ × ℕ) :=
  if n = 0 then (true, (0, 0))
  else checkInventory cfg inv (n % 5, n / 5)

/-- Proof-side helper: `scanBestChange` computed through `canDispenseNat`;
`scanBestChange_eq_nat` below shows it agrees with the embedded scan. -/
def scanBestChangeNat (cfg : FeasibilityConfig) (inv : CoinInventory) : ℕ → ℕ
  | 0 => 0
  | n + 1 =>
    if (canDispenseNat cfg inv (n + 1)).1 then n + 1
    else scanBestChangeNat cfg inv n

/-! ### Hopper manager: `SSP/managers/hopper_manager.py` -/

/-- Module-level constant `MAX_RETRY_ATTEMPTS = 5` of `hopper_manager.py`:
maximum attempts per coin before giving up. -/
def MAX_RETRY_ATTEMPTS : ℕ := 5

/-- Mutable state of one `HopperController`: the `dispensing` re-entrancy flag,
the passage counter maintained by `_sensor_callback`, the debounce flag
`sensor_active`, the motor state `enabled`, and (for frame reasoning) a
cumulative count of `_enable_hopper` activations. -/
structure HopperState where
  dispensing : Bool
  coin_passage_count : ℕ
  sensor_active : Bool
  enabled : Bool
  motor_enable_count : ℕ
  deriving DecidableEq, Repr

/-- Embeds `HopperController._enable_hopper` (successful path): drives the
enable pin active and records the activation. -/
def enable_hopper (s : HopperState) : HopperState :=
  { s with enabled := true, motor_enable_count := s.motor_enable_count + 1 }

/-- Embeds `HopperController._disable_hopper` (successful path). -/
def disable_hopper (s : HopperState) : HopperState :=
  { s with enabled := false }

/-- Embeds `HopperController._wait_for_coin_passage`.  The polling loop is
abstracted by `observed`, the value of `coin_passage_count` at the moment the
loop decides (the sensor callback runs concurrently; each attempt's final
count is an input of the model).  The source resets the counter and the
debounce flag, then returns True exactly when the count is 1 — whether seen
during polling or at the timeout check — and False when it is 0 (timeout) or
greater than 1 (over-dispense). -/
def wait_for_coin_passage (observed : ℕ) (s : HopperState) : Bool × HopperState :=
  (observed == 1,
   { s with coin_passage_count := observed, sensor_active := false })

/-- Embeds `HopperController._dispense_single_coin_attempt`: enable the motor,
wait for exactly one passage, then disable the motor unconditionally. -/
def dispense_single_coin_attempt (observed : ℕ) (s : HopperState) :
    Bool × HopperState :=
  let r := wait_for_coin_passage observed (enable_hopper s)
  (r.1, disable_hopper r.2)

/-- Embeds the retry loop `while attempt <= MAX_RETRY_ATTEMPTS` of
`HopperController.dispense_single_coin`.  `observations attempt` is the
passage count attempt number `attempt` (1-indexed) ends with; `fuel` counts
the remaining loop iterations, maintained as `MAX_RETRY_ATTEMPTS + 1 - attempt`
so that `fuel = 0` is exactly the loop guard failing.  Returns
(success, number of attempts performed, final state): on success or on the
over-dispense abort (`coin_passage_count > 1`) the loop breaks at the current
attempt; otherwise it retries. -/
def runAttempts (observations : ℕ → ℕ) :
    ℕ → ℕ → HopperState → Bool × ℕ × HopperState
  | attempt, 0, s => (false, attempt - 1, s)
  | attempt, fuel + 1, s =>
    let r := dispense_single_coin_attempt (observations attempt) s
    if r.1 then (true, attempt, r.2)
    else if 1 < r.2.coin_passage_count then (false, attempt, r.2)
    else runAttempts observations (attempt + 1) fuel r.2

/-- Embeds `HopperController.dispense_single_coin`: reject re-entry while
`self.dispensing` is set (returning False with nothing touched), otherwise set
the flag, run the retry loop from attempt 1, clear the flag and return the
success boolean.  The result also carries the number of attempts performed,
which the Python code exposes only through its log output. -/
def dispense_single_coin (observations : ℕ → ℕ) (s : HopperState) :
    Bool × ℕ × HopperState :=
  if s.dispensing then (false, 0, s)
  else
    let r := runAttempts observations 1 MAX_RETRY_ATTEMPTS
      { s with dispensing := true }
    (r.1, r.2.1, { r.2.2 with dispensing := false })

/-- Environment of a `ChangeDispenser.dispense_change` call: the simulation
flag, whether the pigpio connection is (or can be re-)established, whether the
hopper controllers are already initialized, whether recreating them succeeds,
and the outcome of each individual `dispense_single_coin` call per
denomination (indexed by position in that denomination's loop). -/
structure DispenseEnv where
  simulated : Bool
  pigpioOK : Bool
  hoppersNonempty : Bool
  rebuildOK : Bool
  fiveResults : ℕ → Bool
  oneResults : ℕ → Bool

/-- Embeds `ChangeDispenser.check_connection`: trivially true in simulated
mode, otherwise true when the connection is live or the reconnect succeeds. -/
def check_connection (env : DispenseEnv) : Bool :=
  env.simulated || env.pigpioOK

/-- Embeds `ChangeDispenser.reinitialize_hoppers`: fails outright in simulated
mode or without a live connection, otherwise succeeds when recreating the
controllers does. -/
def reinitialize_hoppers (env : DispenseEnv) : Bool :=
  !env.simulated && env.pigpioOK && env.rebuildOK

/-- Outcome of the i-th five-peso coin in `dispense_change`: simulated mode
always succeeds (after an artificial delay), hardware mode asks hopper B. -/
def fiveCoinResult (env : DispenseEnv) (i : ℕ) : Bool :=
  if env.simulated then true else env.fiveResults i

/-- Outcome of the i-th one-peso coin in `dispense_change` (hopper A). -/
def oneCoinResult (env : DispenseEnv) (i : ℕ) : Bool :=
  if env.simulated then true else env.oneResults i

/-- Embeds one per-denomination `for i in range(n)` loop of `dispense_change`:
each successful coin increments the actual count, the first failure breaks the
loop ("Continue with what we have instead of failing completely").  Returns
(actual coins dispensed, coins attempted), iterating `results` from index `i`. -/
def dispenseRun (results : ℕ → Bool) : ℕ → ℕ → ℕ × ℕ
  | _, 0 => (0, 0)
  | i, n + 1 =>
    if results i then
      let r := dispenseRun results (i + 1) n
      (r.1 + 1, r.2 + 1)
    else (0, 1)

/-- The breakdown computed at the top of `ChangeDispenser.dispense_change`:
`num_fives = int(amount // 5)`, `num_ones = int(round(amount % 5))`.  The
dispense amount is a whole number of pesos (spec data model: DispenseRequest
is a non-negative whole amount), on which Python floor division and modulo by
5 coincide with natural division and modulo, and the rounding is the
identity.  Returns (num_fives, num_ones). -/
def dispenseBreakdown (n : ℕ) : ℕ × ℕ :=
  (n / 5, n % 5)

/-- Result dict of `ChangeDispenser.dispense_change`.  The early returns of the
source build dicts without the `actual_change` / `expected_change` /
`error` keys; absent keys are modelled as `none`. -/
structure DispenseResult where
  success : Bool
  coins_1 : ℕ
  coins_5 : ℕ
  actual_change : Option ℕ
  expected_change : Option ℕ
  error : Option String
  deriving DecidableEq, Repr

/-- Embeds `ChangeDispenser.dispense_change` for a whole-peso `amount`:
the `amount <= 0` early return, the connection check, the hopper
re-initialization check, then the two sequential per-denomination loops and
the final result with `actual_change = (actual_fives * 5) + (actual_ones * 1)`
and `expected_change = (num_fives * 5) + (num_ones * 1)`.  Status-callback
strings and log output are elided. -/
def dispense_change (env : DispenseEnv) (amount : ℤ) : DispenseResult :=
  if amount ≤ 0 then
    { success := true, coins_1 := 0, coins_5 := 0,
      actual_change := none, expected_change := none, error := none }
  else if !check_connection env then
    { success := false, coins_1 := 0, coins_5 := 0,
      actual_change := none, expected_change := none,
      error := some "pigpio_connection_failed" }
  else if !env.hoppersNonempty && !reinitialize_hoppers env then
    { success := false, coins_1 := 0, coins_5 := 0,
      actual_change := none, expected_change := none,
      error := some "hopper_initialization_failed" }
  else
    let b := dispenseBreakdown amount.toNat
    let fives := dispenseRun (fiveCoinResult env) 0 b.1
    let ones := dispenseRun (oneCoinResult env) 0 b.2
    { success := true, coins_1 := ones.1, coins_5 := fives.1,
      actual_change := some (fives.1 * 5 + ones.1 * 1),
      expected_change := some (b.1 * 5 + b.2 * 1), error := none }

/-! ### Basic lemmas about the embedding -/

/-- Python's round is the identity on whole numbers. -/
theorem pythonRound_intCast (n : ℤ) : pythonRound ((n : ℤ) : ℚ) = n := by
  simp only [pythonRound, Int.floor_intCast, sub_self]
  norm_num

/-- Python's round is the identity on whole non-negative numbers. -/
theorem pythonRound_natCast (n : ℕ) : pythonRound ((n : ℕ) : ℚ) = (n : ℤ) := by
  have h := pythonRound_intCast (n : ℤ)
  rwa [Int.cast_natCast] at h

/-- On a whole change amount the breakdown is division and remainder by 5. -/
theorem calculate_change_breakdown_natCast (n : ℕ) :
    calculate_change_breakdown ((n : ℕ) : ℚ) = (n % 5, n / 5) := by
  rcases Nat.eq_zero_or_pos n with h | h
  · subst h; simp [calculate_change_breakdown]
  · have hpos : (0 : ℚ) < (n : ℚ) := by exact_mod_cast h
    rw [calculate_change_breakdown, if_neg (by linarith), pythonRound_natCast]
    simp

/-- `can_dispense_change` on a whole change amount agrees with the
natural-number helper. -/
theorem can_dispense_change_natCast (cfg : FeasibilityConfig)
    (inv : CoinInventory) (n : ℕ) :
    can_dispense_change cfg inv ((n : ℕ) : ℚ) = canDispenseNat cfg inv n := by
  rcases Nat.eq_zero_or_pos n with h | h
  · subst h; simp [can_dispense_change, canDispenseNat]
  · have hpos : (0 : ℚ) < (n : ℚ) := by exact_mod_cast h
    rw [can_dispense_change, if_neg (by linarith), calculate_change_breakdown_natCast,
      canDispenseNat, if_neg (by omega)]

/-- `can_dispense_change` on a whole integer change amount. -/
theorem can_dispense_change_intCast (cfg : FeasibilityConfig)
    (inv : CoinInventory) (k : ℤ) :
    can_dispense_change cfg inv ((k : ℤ) : ℚ) =
      if k ≤ 0 then (true, (0, 0)) else canDispenseNat cfg inv k.toNat := by
  rcases le_or_lt k 0 with h | h
  · rw [if_pos h, can_dispense_change, if_pos (by exact_mod_cast h)]
  · rw [if_neg (by omega)]
    have hk : ((k : ℤ) : ℚ) = ((k.toNat : ℕ) : ℚ) := by
      exact_mod_cast congrArg (fun z : ℤ => (z : ℚ))
        (Int.toNat_of_nonneg (le_of_lt h)).symm
    rw [hk, can_dispense_change_natCast]

/-- Dispensing zero change is trivially feasible. -/
theorem can_dispense_change_zero (cfg : FeasibilityConfig) (inv : CoinInventory) :
    can_dispense_change cfg inv 0 = (true, (0, 0)) := by
  rw [can_dispense_change, if_pos le_rfl]

/-- The embedded downward scan agrees with its natural-number helper. -/
theorem scanBestChange_eq_nat (cfg : FeasibilityConfig) (inv : CoinInventory) :
    ∀ m : ℕ, scanBestChange cfg inv m = scanBestChangeNat cfg inv m := by
  intro m
  induction m with
  | zero => rfl
  | succ n ih =>
    rw [scanBestChange, scanBestChangeNat, can_dispense_change_natCast, ih]

/-- Characterization of the checking loops: feasible exactly when both
denominations are sufficient and neither positive reserve threshold is
violated. -/
theorem checkInventory_fst_eq_true_iff (cfg : FeasibilityConfig)
    (inv : CoinInventory) (required : ℕ × ℕ) :
    (checkInventory cfg inv required).1 = true ↔
      required.1 ≤ inv.coins1 ∧ required.2 ≤ inv.coins5 ∧
      (0 < cfg.minThreshold1 → cfg.minThreshold1 ≤ inv.coins1 - required.1) ∧
      (0 < cfg.minThreshold5 → cfg.minThreshold5 ≤ inv.coins5 - required.2) := by
  unfold checkInventory
  split_ifs <;> simp_all

/-! ### C2: canonical breakdown -/

/-- Claim C2: for every whole change amount C ≥ 0, the breakdown computed by
`PaymentAlgorithmManager.calculate_change_breakdown` and the one computed at
the top of `ChangeDispenser.dispense_change` are fives = C / 5 and
ones = C % 5, and 5 * fives + ones = C.
(`calculate_change_breakdown` returns the pair as (ones, fives).) -/
theorem change_breakdown_canonical (C : ℕ) :
    calculate_change_breakdown ((C : ℕ) : ℚ) = (C % 5, C / 5) ∧
    dispenseBreakdown C = (C / 5, C % 5) ∧
    5 * (C / 5) + C % 5 = C :=
  ⟨calculate_change_breakdown_natCast C, rfl, Nat.div_add_mod C 5⟩

/-! ### C5: per-denomination monotonicity of feasibility -/

/-- Claim C5: for a feasible positive change amount C, lowering the five-peso
(resp. one-peso) inventory strictly below the required count for C makes
`can_dispense_change` infeasible, and restoring the original entry restores
feasibility. -/
theorem can_dispense_change_monotone (cfg : FeasibilityConfig)
    (inv : CoinInventory) (C : ℚ) (hpos : 0 < C)
    (hfeas : (can_dispense_change cfg inv C).1 = true) :
    (∀ n5 : ℕ, n5 < (calculate_change_breakdown C).2 →
      (can_dispense_change cfg { inv with coins5 := n5 } C).1 = false) ∧
    (∀ n1 : ℕ, n1 < (calculate_change_breakdown C).1 →
      (can_dispense_change cfg { inv with coins1 := n1 } C).1 = false) ∧
    (can_dispense_change cfg { inv with coins5 := inv.coins5 } C).1 = true ∧
    (can_dispense_change cfg { inv with coins1 := inv.coins1 } C).1 = true := by
  have hC : ¬ C ≤ 0 := not_le.mpr hpos
  rw [can_dispense_change, if_neg hC, checkInventory_fst_eq_true_iff] at hfeas
  refine ⟨?_, ?_, ?_, ?_⟩
  · intro n5 h5
    rw [can_dispense_change, if_neg hC]
    rcases h : (checkInventory cfg { inv with coins5 := n5 }
        (calculate_change_breakdown C)).1 with _ | _
    · rfl
    · exfalso
      rw [checkInventory_fst_eq_true_iff] at h
      exact absurd h.2.1 (by simpa using Nat.lt_irrefl _ (lt_of_le_of_lt h.2.1 h5))
  · intro n1 h1
    rw [can_dispense_change, if_neg hC]
    rcases h : (checkInventory cfg { inv with coins1 := n1 }
        (calculate_change_breakdown C)).1 with _ | _
    · rfl
    · exfalso
      rw [checkInventory_fst_eq_true_iff] at h
      exact absurd h.1 (by simpa using Nat.lt_irrefl _ (lt_of_le_of_lt h.1 h1))
  · rw [can_dispense_change, if_neg hC, checkInventory_fst_eq_true_iff]
    exact hfeas
  · rw [can_dispense_change, if_neg hC, checkInventory_fst_eq_true_iff]
    exact hfeas

/-- Witness for C5 at C = 7 with inventory {1: 10, 5: 10} and thresholds 0:
required coins are (2 ones, 1 five); dropping the five-peso inventory to 0 or
the one-peso inventory to 0 flips feasibility to false. -/
theorem can_dispense_change_monotone_witness :
    (0 : ℚ) < 7 ∧
    (can_dispense_change ⟨0, 0, 50⟩ ⟨10, 10⟩ 7).1 = true ∧
    (can_dispense_change ⟨0, 0, 50⟩ ⟨10, 0⟩ 7).1 = false ∧
    (can_dispense_change ⟨0, 0, 50⟩ ⟨0, 10⟩ 7).1 = false := by
  have h7 : (7 : ℚ) = ((7 : ℕ) : ℚ) := by norm_num
  have hpos : (0 : ℚ) < 7 := by norm_num
  have hfeas : (can_dispense_change ⟨0, 0, 50⟩ ⟨10, 10⟩ 7).1 = true := by
    rw [h7, can_dispense_change_natCast]; decide
  have hbk : (calculate_change_breakdown (7 : ℚ)).2 = 1 ∧
      (calculate_change_breakdown (7 : ℚ)).1 = 2 := by
    rw [h7, calculate_change_breakdown_natCast]; exact ⟨rfl, rfl⟩
  have h := can_dispense_change_monotone ⟨0, 0, 50⟩ ⟨10, 10⟩ 7 hpos hfeas
  exact ⟨hpos, hfeas, h.1 0 (by omega), h.2.1 0 (by omega)⟩

/-! ### C3 / C4: concrete evaluation of `find_best_payment_amount`, and the
configured max-change cap -/

/-- Helper evaluation: with total_cost = 23, inventory {1: 100, 5: 100} and
thresholds 0, the scan finds best_change = 504 (100 fives and 4 ones),
so ceiling = 527; among the viable denominations [50, 100] the largest with
dispensable change is 100, with change 77 = 15 fives + 2 ones. -/
theorem find_best_at_23_full_inventory :
    find_best_payment_amount ⟨0, 0, 50⟩ ⟨100, 100⟩ 23 =
      { amount := 100, change := 77, required_coins := (2, 15) } := by
  rw [show (23 : ℚ) = ((23 : ℕ) : ℚ) by norm_num]
  rw [find_best_payment_amount]
  rw [pythonRound_natCast, scanBestChange_eq_nat]
  norm_num
  rw [show scanBestChangeNat ⟨0, 0, 50⟩ ⟨100, 100⟩
      (maxPossibleChange ⟨0, 0, 50⟩ ⟨100, 100⟩) = 504 from by decide]
  norm_num [chooseLargest, acceptedDenominations]
  rw [show (77 : ℚ) = ((77 : ℕ) : ℚ) by norm_num, can_dispense_change_natCast,
    show canDispenseNat ⟨0, 0, 50⟩ ⟨100, 100⟩ 77 = (true, (2, 15)) from by decide]
  norm_num

/-- Counterexample to claim C3 as stated: on total_cost = 23 with inventory
{1: 100, 5: 100} and thresholds 0, `find_best_payment_amount` does not return
amount = 25 with change = 2 (25 is not even an accepted tender denomination). -/
theorem find_best_at_23_not_25 :
    (find_best_payment_amount ⟨0, 0, 50⟩ ⟨100, 100⟩ 23).amount ≠ 25 ∧
    (find_best_payment_amount ⟨0, 0, 50⟩ ⟨100, 100⟩ 23).change ≠ 2 := by
  rw [find_best_at_23_full_inventory]
  norm_num

/-- Claim C3 amended: on total_cost = 23 with inventory {1: 100, 5: 100} and
thresholds 0, `find_best_payment_amount` returns amount = 100 and change = 77
(breakdown 15 fives and 2 ones). -/
theorem find_best_at_23_result :
    find_best_payment_amount ⟨0, 0, 50⟩ ⟨100, 100⟩ 23 =
      { amount := 100, change := 77, required_coins := (2, 15) } :=
  find_best_at_23_full_inventory

/-- `can_dispense_change` never reads `MAX_CHANGE_LIMIT`: definitionally equal
under any two cap values. -/
theorem can_dispense_change_cap_irrelevant (t1 t5 : ℕ) (L1 L2 : ℚ)
    (inv : CoinInventory) (c : ℚ) :
    can_dispense_change ⟨t1, t5, L1⟩ inv c =
      can_dispense_change ⟨t1, t5, L2⟩ inv c := rfl

/-- The downward scan never reads `MAX_CHANGE_LIMIT`. -/
theorem scanBestChange_cap_irrelevant (t1 t5 : ℕ) (L1 L2 : ℚ)
    (inv : CoinInventory) : ∀ m : ℕ,
    scanBestChange ⟨t1, t5, L1⟩ inv m = scanBestChange ⟨t1, t5, L2⟩ inv m := by
  intro m
  induction m with
  | zero => rfl
  | succ n ih =>
    rw [scanBestChange, scanBestChange,
      can_dispense_change_cap_irrelevant t1 t5 L1 L2, ih]

/-- The denomination selection loop never reads `MAX_CHANGE_LIMIT`. -/
theorem chooseLargest_cap_irrelevant (t1 t5 : ℕ) (L1 L2 : ℚ)
    (inv : CoinInventory) (base : ℤ) : ∀ l : List ℤ,
    chooseLargest ⟨t1, t5, L1⟩ inv base l =
      chooseLargest ⟨t1, t5, L2⟩ inv base l := by
  intro l
  induction l with
  | nil => rfl
  | cons d rest ih =>
    simp only [chooseLargest]
    rw [can_dispense_change_cap_irrelevant t1 t5 L1 L2, ih]

/-- Claim C4 amended: the configured `max_change_limit` bounds neither
`can_dispense_change` nor `find_best_payment_amount` — both are entirely
independent of the cap value (the source consults the cap only in
`find_optimal_payment_amounts` and `get_payment_status_message`). -/
theorem cap_does_not_bound_feasibility (t1 t5 : ℕ) (L1 L2 : ℚ)
    (inv : CoinInventory) (c tc : ℚ) :
    can_dispense_change ⟨t1, t5, L1⟩ inv c =
      can_dispense_change ⟨t1, t5, L2⟩ inv c ∧
    find_best_payment_amount ⟨t1, t5, L1⟩ inv tc =
      find_best_payment_amount ⟨t1, t5, L2⟩ inv tc := by
  refine ⟨rfl, ?_⟩
  rw [find_best_payment_amount, find_best_payment_amount,
    show maxPossibleChange ⟨t1, t5, L1⟩ inv =
      maxPossibleChange ⟨t1, t5, L2⟩ inv from rfl,
    scanBestChange_cap_irrelevant t1 t5 L1 L2]
  simp only [chooseLargest_cap_irrelevant t1 t5 L1 L2]

/-- Counterexample to claim C4 as stated: with the default cap
`MAX_CHANGE_LIMIT = 50`, inventory {1: 100, 5: 100} and thresholds 0, the
change amount 51 exceeds the cap yet `can_dispense_change` reports it
feasible, and `find_best_payment_amount` at total_cost = 23 returns change 77,
exceeding the cap. -/
theorem cap_exceeded_counterexample :
    (50 : ℚ) < 51 ∧
    (can_dispense_change ⟨0, 0, 50⟩ ⟨100, 100⟩ 51).1 = true ∧
    (find_best_payment_amount ⟨0, 0, 50⟩ ⟨100, 100⟩ 23).change = 77 ∧
    (50 : ℚ) < 77 := by
  refine ⟨by norm_num, ?_, ?_, by norm_num⟩
  · rw [show (51 : ℚ) = ((51 : ℕ) : ℚ) by norm_num, can_dispense_change_natCast]
    decide
  · rw [find_best_at_23_full_inventory]

/-! ### C9: non-positive dispense amounts -/

/-- Claim C9 amended: for amount ≤ 0, `dispense_change` succeeds with zero
coin counts and touches no hardware — the result does not depend on the
environment at all — but the early-return dict carries only the keys
`success`, `coins_1` and `coins_5`: `actual_change` and `expected_change`
are absent (`none`), not part of the returned shape. -/
theorem dispense_change_nonpositive (env : DispenseEnv) (amount : ℤ)
    (h : amount ≤ 0) :
    dispense_change env amount =
      { success := true, coins_1 := 0, coins_5 := 0,
        actual_change := none, expected_change := none, error := none } := by
  rw [dispense_change, if_pos h]

/-- Witness for C9 at amounts 0 and -5 with a live hardware environment. -/
theorem dispense_change_nonpositive_witness :
    (0 : ℤ) ≤ 0 ∧ (-5 : ℤ) ≤ 0 ∧
    dispense_change ⟨false, true, true, true, fun _ => true, fun _ => true⟩ 0 =
      { success := true, coins_1 := 0, coins_5 := 0,
        actual_change := none, expected_change := none, error := none } ∧
    dispense_change ⟨false, true, true, true, fun _ => true, fun _ => true⟩ (-5) =
      { success := true, coins_1 := 0, coins_5 := 0,
        actual_change := none, expected_change := none, error := none } :=
  ⟨le_rfl, by norm_num,
   dispense_change_nonpositive _ 0 le_rfl,
   dispense_change_nonpositive _ (-5) (by norm_num)⟩

/-- Counterexample to claim C9 as stated: the early return for amount ≤ 0
does not carry the full exposed shape — `actual_change` and `expected_change`
are missing from the returned dict. -/
theorem dispense_change_nonpositive_shape :
    (dispense_change ⟨false, true, true, true, fun _ => true, fun _ => true⟩
      0).actual_change = none ∧
    (dispense_change ⟨false, true, true, true, fun _ => true, fun _ => true⟩
      (-5)).expected_change = none := by
  constructor <;> rfl

/-! ### C6: partial failure accounting in `dispense_change` -/

/-- Per-denomination loop invariants: dispensed ≤ attempted ≤ requested, and
attempted exceeds dispensed by at most one (the single failed coin at which
the loop breaks — no coin of that denomination is attempted afterwards). -/
theorem dispenseRun_spec (results : ℕ → Bool) :
    ∀ n i : ℕ,
      (dispenseRun results i n).1 ≤ (dispenseRun results i n).2 ∧
      (dispenseRun results i n).2 ≤ n ∧
      ((dispenseRun results i n).2 = (dispenseRun results i n).1 ∨
        (dispenseRun results i n).2 = (dispenseRun results i n).1 + 1) := by
  intro n
  induction n with
  | zero => intro i; simp [dispenseRun]
  | succ m ih =>
    intro i
    simp only [dispenseRun]
    rcases h : results i with _ | _
    · simp [h]
    · have := ih (i + 1)
      simp only [h, if_true]
      omega

/-- Claim C6: for amount > 0 with the hardware connection available and
hoppers (re)initialized, `dispense_change` completes with success = true even
under partial failure; it reports `actual_change = 5*fives + 1*ones` from the
actually dispensed counts and `expected_change = amount`, and each
denomination loop stops at its first failure, so actual counts never exceed
the requested breakdown. -/
theorem dispense_change_partial_failure (env : DispenseEnv) (amount : ℤ)
    (hpos : 0 < amount) (hconn : check_connection env = true)
    (hhop : env.hoppersNonempty = true ∨ reinitialize_hoppers env = true) :
    (dispense_change env amount).success = true ∧
    (dispense_change env amount).coins_5 =
      (dispenseRun (fiveCoinResult env) 0 (dispenseBreakdown amount.toNat).1).1 ∧
    (dispense_change env amount).coins_1 =
      (dispenseRun (oneCoinResult env) 0 (dispenseBreakdown amount.toNat).2).1 ∧
    (dispense_change env amount).actual_change =
      some ((dispense_change env amount).coins_5 * 5 +
        (dispense_change env amount).coins_1 * 1) ∧
    (dispense_change env amount).expected_change = some amount.toNat ∧
    (amount.toNat : ℤ) = amount ∧
    (dispense_change env amount).coins_5 ≤ (dispenseBreakdown amount.toNat).1 ∧
    (dispense_change env amount).coins_1 ≤ (dispenseBreakdown amount.toNat).2 ∧
    (dispenseRun (fiveCoinResult env) 0 (dispenseBreakdown amount.toNat).1).2 ≤
      (dispenseBreakdown amount.toNat).1 ∧
    ((dispenseRun (fiveCoinResult env) 0 (dispenseBreakdown amount.toNat).1).2 =
        (dispense_change env amount).coins_5 ∨
      (dispenseRun (fiveCoinResult env) 0 (dispenseBreakdown amount.toNat).1).2 =
        (dispense_change env amount).coins_5 + 1) ∧
    (dispenseRun (oneCoinResult env) 0 (dispenseBreakdown amount.toNat).2).2 ≤
      (dispenseBreakdown amount.toNat).2 ∧
    ((dispenseRun (oneCoinResult env) 0 (dispenseBreakdown amount.toNat).2).2 =
        (dispense_change env amount).coins_1 ∨
      (dispenseRun (oneCoinResult env) 0 (dispenseBreakdown amount.toNat).2).2 =
        (dispense_change env amount).coins_1 + 1) := by
  have hc : (!check_connection env) = false := by rw [hconn]; rfl
  have hh : (!env.hoppersNonempty && !reinitialize_hoppers env) = false := by
    rcases hhop with h | h <;> rw [h] <;> simp
  have hns : ¬ amount ≤ 0 := by omega
  have hres : dispense_change env amount =
      { success := true,
        coins_1 := (dispenseRun (oneCoinResult env) 0
          (dispenseBreakdown amount.toNat).2).1,
        coins_5 := (dispenseRun (fiveCoinResult env) 0
          (dispenseBreakdown amount.toNat).1).1,
        actual_change := some ((dispenseRun (fiveCoinResult env) 0
            (dispenseBreakdown amount.toNat).1).1 * 5 +
          (dispenseRun (oneCoinResult env) 0
            (dispenseBreakdown amount.toNat).2).1 * 1),
        expected_change := some ((dispenseBreakdown amount.toNat).1 * 5 +
          (dispenseBreakdown amount.toNat).2 * 1),
        error := none } := by
    rw [dispense_change, if_neg hns]
    simp only [hc, hh, Bool.false_eq_true, if_false]
  rw [hres]
  have h5 := dispenseRun_spec (fiveCoinResult env) (dispenseBreakdown amount.toNat).1 0
  have h1 := dispenseRun_spec (oneCoinResult env) (dispenseBreakdown amount.toNat).2 0
  have hexp : (dispenseBreakdown amount.toNat).1 * 5 +
      (dispenseBreakdown amount.toNat).2 * 1 = amount.toNat := by
    simp only [dispenseBreakdown]
    omega
  exact ⟨rfl, rfl, rfl, rfl, by simpa using hexp, Int.toNat_of_nonneg (by omega),
    le_trans h5.1 h5.2.1, le_trans h1.1 h1.2.1, h5.2.1, h5.2.2, h1.2.1, h1.2.2⟩

/-- Witness for C6 at amount 12 with hopper B failing from its second coin:
requested breakdown is 2 fives + 2 ones, dispensed is 1 five + 2 ones, and
the call still reports success with actual 7 of expected 12. -/
theorem dispense_change_partial_failure_witness :
    (0 : ℤ) < 12 ∧
    check_connection ⟨false, true, true, true,
      fun i => decide (i = 0), fun _ => true⟩ = true ∧
    (dispense_change ⟨false, true, true, true,
      fun i => decide (i = 0), fun _ => true⟩ 12).success = true ∧
    (dispense_change ⟨false, true, true, true,
      fun i => decide (i = 0), fun _ => true⟩ 12).coins_5 = 1 ∧
    (dispense_change ⟨false, true, true, true,
      fun i => decide (i = 0), fun _ => true⟩ 12).coins_1 = 2 ∧
    (dispense_change ⟨false, true, true, true,
      fun i => decide (i = 0), fun _ => true⟩ 12).actual_change = some 7 ∧
    (dispense_change ⟨false, true, true, true,
      fun i => decide (i = 0), fun _ => true⟩ 12).expected_change = some 12 := by
  have h := dispense_change_partial_failure
    ⟨false, true, true, true, fun i => decide (i = 0), fun _ => true⟩ 12
    (by norm_num) rfl (Or.inl rfl)
  refine ⟨by norm_num, rfl, h.1, ?_, ?_, ?_, ?_⟩
  · rw [h.2.1]; decide
  · rw [h.2.2.1]; decide
  · rw [h.2.2.2.1]
    rw [h.2.1, h.2.2.1]; decide
  · rw [h.2.2.2.2.1]; decide

/-! ### C7 / C8 / C10: the single-coin retry loop -/

/-- Closed form of one dispense attempt: the attempt succeeds exactly when
the observed passage count is 1; the motor was enabled once and is disabled
again, and the passage counter holds the observed count. -/
theorem dispense_single_coin_attempt_eq (observed : ℕ) (s : HopperState) :
    dispense_single_coin_attempt observed s =
      (observed == 1,
       { s with
          enabled := false,
          sensor_active := false,
          coin_passage_count := observed,
          motor_enable_count := s.motor_enable_count + 1 }) := rfl

/-- The retry loop performs at most `attempt + fuel - 1` attempts when entered
at attempt number `attempt` with `fuel` iterations left. -/
theorem runAttempts_attempts_le (obs : ℕ → ℕ) :
    ∀ (fuel attempt : ℕ) (s : HopperState),
      (runAttempts obs attempt fuel s).2.1 ≤ attempt + fuel - 1 := by
  intro fuel
  induction fuel with
  | zero => intro attempt s; simp [runAttempts]
  | succ m ih =>
    intro attempt s
    rw [runAttempts, dispense_single_coin_attempt_eq]
    split
    · show attempt ≤ attempt + (m + 1) - 1
      omega
    · split
      · show attempt ≤ attempt + (m + 1) - 1
        omega
      · exact le_trans (ih (attempt + 1) _) (by omega)

/-- If every attempt before `i` observes zero passages and attempt `i`
observes more than one, the loop aborts at attempt `i` with failure:
no further attempt is started after an over-dispense. -/
theorem runAttempts_over_dispense_abort (obs : ℕ → ℕ) :
    ∀ (fuel attempt i : ℕ) (s : HopperState),
      attempt ≤ i → i < attempt + fuel →
      (∀ j, attempt ≤ j → j < i → obs j = 0) → 1 < obs i →
      (runAttempts obs attempt fuel s).1 = false ∧
      (runAttempts obs attempt fuel s).2.1 = i := by
  intro fuel
  induction fuel with
  | zero => intro attempt i s h1 h2; omega
  | succ m ih =>
    intro attempt i s h1 h2 hprev hover
    rw [runAttempts, dispense_single_coin_attempt_eq]
    rcases eq_or_lt_of_le h1 with heq | hlt
    · subst heq
      have hne : (obs attempt == 1) = false := by
        simp only [beq_eq_false_iff_ne]
        omega
      simp only [hne, Bool.false_eq_true, if_false]
      rw [if_pos (show 1 < obs attempt from hover)]
      exact ⟨rfl, rfl⟩
    · have hz : obs attempt = 0 := hprev attempt le_rfl hlt
      have hne : (obs attempt == 1) = false := by
        simp only [beq_eq_false_iff_ne]
        omega
      simp only [hne, Bool.false_eq_true, if_false]
      rw [if_neg (show ¬ 1 < obs attempt by omega)]
      exact ih (attempt + 1) i _ hlt (by omega)
        (fun j hj1 hj2 => hprev j (by omega) hj2) hover

/-- If every attempt before `i` observes zero passages and attempt `i`
observes exactly one, the loop succeeds at attempt `i`. -/
theorem runAttempts_first_success (obs : ℕ → ℕ) :
    ∀ (fuel attempt i : ℕ) (s : HopperState),
      attempt ≤ i → i < attempt + fuel →
      (∀ j, attempt ≤ j → j < i → obs j = 0) → obs i = 1 →
      (runAttempts obs attempt fuel s).1 = true ∧
      (runAttempts obs attempt fuel s).2.1 = i := by
  intro fuel
  induction fuel with
  | zero => intro attempt i s h1 h2; omega
  | succ m ih =>
    intro attempt i s h1 h2 hprev hone
    rw [runAttempts, dispense_single_coin_attempt_eq]
    rcases eq_or_lt_of_le h1 with heq | hlt
    · subst heq
      simp only [show (obs attempt == 1) = true by simp [hone]]
      exact ⟨rfl, rfl⟩
    · have hz : obs attempt = 0 := hprev attempt le_rfl hlt
      have hne : (obs attempt == 1) = false := by
        simp only [beq_eq_false_iff_ne]
        omega
      simp only [hne, Bool.false_eq_true, if_false]
      rw [if_neg (show ¬ 1 < obs attempt by omega)]
      exact ih (attempt + 1) i _ hlt (by omega)
        (fun j hj1 hj2 => hprev j (by omega) hj2) hone

/-- Claim C7: if all attempts before attempt `i` time out with zero passages
and attempt `i` (1 ≤ i ≤ MAX_RETRY_ATTEMPTS) observes a passage count above 1,
`dispense_single_coin` returns False after exactly `i` attempts — the
over-dispense aborts the loop and no further attempt is started. -/
theorem dispense_single_coin_over_dispense (obs : ℕ → ℕ) (s : HopperState)
    (i : ℕ) (hd : s.dispensing = false) (h1 : 1 ≤ i)
    (h5 : i ≤ MAX_RETRY_ATTEMPTS)
    (hprev : ∀ j, 1 ≤ j → j < i → obs j = 0) (hover : 1 < obs i) :
    (dispense_single_coin obs s).1 = false ∧
    (dispense_single_coin obs s).2.1 = i := by
  rw [dispense_single_coin, if_neg (by simp [hd])]
  exact runAttempts_over_dispense_abort obs MAX_RETRY_ATTEMPTS 1 i _ h1
    (by unfold MAX_RETRY_ATTEMPTS at h5 ⊢; omega) hprev hover

/-- Witness for C7: with the passage counter reading 2 on attempt 1 the call
fails after exactly one attempt. -/
theorem dispense_single_coin_over_dispense_witness :
    (1 : ℕ) < 2 ∧
    (dispense_single_coin (fun _ => 2) ⟨false, 0, false, false, 0⟩).1 = false ∧
    (dispense_single_coin (fun _ => 2) ⟨false, 0, false, false, 0⟩).2.1 = 1 := by
  have h := dispense_single_coin_over_dispense (fun _ => 2)
    ⟨false, 0, false, false, 0⟩ 1 rfl le_rfl (by unfold MAX_RETRY_ATTEMPTS; omega)
    (fun j hj1 hj2 => absurd (lt_of_le_of_lt hj1 hj2) (lt_irrefl 1)) (by decide)
  exact ⟨by omega, h.1, h.2⟩

/-- Claim C8: `dispense_single_coin` performs at most `MAX_RETRY_ATTEMPTS = 5`
attempts (it always returns a boolean by construction), and when attempts
1..4 time out with zero passages and attempt 5 observes exactly one passage,
it returns True after exactly 5 attempts. -/
theorem dispense_single_coin_bounded (obs : ℕ → ℕ) (s : HopperState) :
    MAX_RETRY_ATTEMPTS = 5 ∧
    (dispense_single_coin obs s).2.1 ≤ MAX_RETRY_ATTEMPTS ∧
    (s.dispensing = false →
      (∀ j, 1 ≤ j → j < MAX_RETRY_ATTEMPTS → obs j = 0) →
      obs MAX_RETRY_ATTEMPTS = 1 →
      (dispense_single_coin obs s).1 = true ∧
      (dispense_single_coin obs s).2.1 = MAX_RETRY_ATTEMPTS) := by
  refine ⟨rfl, ?_, ?_⟩
  · rcases h : s.dispensing with _ | _
    · rw [dispense_single_coin, if_neg (by simp [h])]
      have hb := runAttempts_attempts_le obs MAX_RETRY_ATTEMPTS 1
        { s with dispensing := true }
      exact le_trans hb (by unfold MAX_RETRY_ATTEMPTS; omega)
    · rw [dispense_single_coin, if_pos h]
      exact Nat.zero_le _
  · intro hd hprev hone
    rw [dispense_single_coin, if_neg (by simp [hd])]
    exact runAttempts_first_success obs MAX_RETRY_ATTEMPTS 1 MAX_RETRY_ATTEMPTS _
      (by unfold MAX_RETRY_ATTEMPTS; omega) (by unfold MAX_RETRY_ATTEMPTS; omega)
      hprev hone

/-- Witness for C8: attempts 1..4 observe zero passages, attempt 5 observes
one; the call succeeds after exactly 5 attempts. -/
theorem dispense_single_coin_bounded_witness :
    (dispense_single_coin (fun j => if j = 5 then 1 else 0)
      ⟨false, 0, false, false, 0⟩).2.1 ≤ MAX_RETRY_ATTEMPTS ∧
    (dispense_single_coin (fun j => if j = 5 then 1 else 0)
      ⟨false, 0, false, false, 0⟩).1 = true ∧
    (dispense_single_coin (fun j => if j = 5 then 1 else 0)
      ⟨false, 0, false, false, 0⟩).2.1 = MAX_RETRY_ATTEMPTS := by
  have h := dispense_single_coin_bounded (fun j => if j = 5 then 1 else 0)
    ⟨false, 0, false, false, 0⟩
  have hs := h.2.2 rfl
    (fun j hj1 hj2 => by
      unfold MAX_RETRY_ATTEMPTS at hj2
      rw [if_neg (by omega)])
    (by unfold MAX_RETRY_ATTEMPTS; rw [if_pos rfl])
  exact ⟨h.2.1, hs.1, hs.2⟩

/-- Claim C10: a call on a controller whose `dispensing` flag is already set
returns False immediately: zero attempts are made, so the motor is never
enabled, and the state — including the passage counter and the flag itself —
is returned untouched. -/
theorem dispense_single_coin_reentry (obs : ℕ → ℕ) (s : HopperState)
    (h : s.dispensing = true) :
    dispense_single_coin obs s = (false, 0, s) := by
  rw [dispense_single_coin, if_pos h]

/-- Witness for C10 on a controller mid-dispense with passage count 3 and
seven prior motor activations: everything is left exactly as it was. -/
theorem dispense_single_coin_reentry_witness :
    (⟨true, 3, false, false, 7⟩ : HopperState).dispensing = true ∧
    dispense_single_coin (fun _ => 1) ⟨true, 3, false, false, 7⟩ =
      (false, 0, ⟨true, 3, false, false, 7⟩) :=
  ⟨rfl, dispense_single_coin_reentry (fun _ => 1) ⟨true, 3, false, false, 7⟩ rfl⟩

/-! ### C1: characterization of `find_best_payment_amount` -/

/-- The downward scan never exceeds its starting point. -/
theorem scanBestChange_le (cfg : FeasibilityConfig) (inv : CoinInventory) :
    ∀ m : ℕ, scanBestChange cfg inv m ≤ m := by
  intro m
  induction m with
  | zero => exact le_rfl
  | succ n ih =>
    rw [scanBestChange]
    split
    · exact le_rfl
    · exact le_trans ih (Nat.le_succ n)

/-- The value the downward scan stops at is dispensable (change 0, where the
scan necessarily ends, is trivially dispensable). -/
theorem scanBestChange_feasible (cfg : FeasibilityConfig) (inv : CoinInventory) :
    ∀ m : ℕ,
      (can_dispense_change cfg inv ((scanBestChange cfg inv m : ℕ) : ℚ)).1 = true := by
  intro m
  induction m with
  | zero =>
    show (can_dispense_change cfg inv ((0 : ℕ) : ℚ)).1 = true
    rw [Nat.cast_zero, can_dispense_change_zero]
  | succ n ih =>
    rw [scanBestChange]
    split
    · assumption
    · exact ih

/-- The scan takes the first hit from above: any dispensable value in range is
at most the scan result. -/
theorem scanBestChange_greatest (cfg : FeasibilityConfig) (inv : CoinInventory) :
    ∀ m c : ℕ, c ≤ m → (can_dispense_change cfg inv ((c : ℕ) : ℚ)).1 = true →
      c ≤ scanBestChange cfg inv m := by
  intro m
  induction m with
  | zero =>
    intro c hc _
    rw [Nat.le_zero.mp hc]
    exact Nat.zero_le _
  | succ n ih =>
    intro c hc hfeas
    rw [scanBestChange]
    split
    · exact hc
    · rename_i hfail
      rcases Nat.lt_or_ge c (n + 1) with h | h
      · exact ih c (by omega) hfeas
      · have hceq : c = n + 1 := by omega
        subst hceq
        exact absurd hfeas hfail

/-- When the selection loop returns nothing, no denomination in the list at or
above `base` has dispensable change. -/
theorem chooseLargest_none_spec (cfg : FeasibilityConfig) (inv : CoinInventory)
    (base : ℤ) :
    ∀ l : List ℤ, chooseLargest cfg inv base l = none →
      ∀ d ∈ l, base ≤ d →
        (can_dispense_change cfg inv ((d - base : ℤ) : ℚ)).1 = false := by
  intro l
  induction l with
  | nil => intro _ d hd; exact absurd hd (List.not_mem_nil d)
  | cons x rest ih =>
    intro hnone d hd hbd
    rw [chooseLargest] at hnone
    rcases List.mem_cons.mp hd with heq | hmem
    · subst heq
      split at hnone
      · omega
      · split at hnone
        · exact absurd hnone (by simp)
        · rename_i hfail
          simpa using hfail
    · split at hnone
      · exact ih hnone d hmem hbd
      · split at hnone
        · exact absurd hnone (by simp)
        · exact ih hnone d hmem hbd

/-- When the selection loop returns a denomination, it is a member of the
list, lies at or above `base`, its change is dispensable, and the required
coins are those reported by `can_dispense_change`. -/
theorem chooseLargest_some_spec (cfg : FeasibilityConfig) (inv : CoinInventory)
    (base : ℤ) :
    ∀ (l : List ℤ) (d : ℤ) (req : ℕ × ℕ),
      chooseLargest cfg inv base l = some (d, req) →
      d ∈ l ∧ base ≤ d ∧
      (can_dispense_change cfg inv ((d - base : ℤ) : ℚ)).1 = true ∧
      req = (can_dispense_change cfg inv ((d - base : ℤ) : ℚ)).2 := by
  intro l
  induction l with
  | nil => intro d req h; exact absurd h (by rw [chooseLargest]; simp)
  | cons x rest ih =>
    intro d req h
    rw [chooseLargest] at h
    split at h
    · have hr := ih d req h
      exact ⟨List.mem_cons_of_mem x hr.1, hr.2.1, hr.2.2.1, hr.2.2.2⟩
    · split at h
      · rename_i hlt hok
        simp only [Option.some.injEq, Prod.mk.injEq] at h
        obtain ⟨hxd, hreq⟩ := h
        subst hxd
        exact ⟨List.mem_cons_self x rest, by omega, hok, hreq.symm⟩
      · have hr := ih d req h
        exact ⟨List.mem_cons_of_mem x hr.1, hr.2.1, hr.2.2.1, hr.2.2.2⟩

/-- On a list sorted in descending order, the selection loop returns the
largest qualifying denomination. -/
theorem chooseLargest_max (cfg : FeasibilityConfig) (inv : CoinInventory)
    (base : ℤ) :
    ∀ l : List ℤ, List.Pairwise (fun a b => b ≤ a) l →
      ∀ (d : ℤ) (req : ℕ × ℕ), chooseLargest cfg inv base l = some (d, req) →
      ∀ e ∈ l, base ≤ e →
        (can_dispense_change cfg inv ((e - base : ℤ) : ℚ)).1 = true → e ≤ d := by
  intro l
  induction l with
  | nil => intro _ d req h; exact absurd h (by rw [chooseLargest]; simp)
  | cons x rest ih =>
    intro hpw d req h e he hbe hfeas
    have hrest : ∀ y ∈ rest, y ≤ x := fun y hy => (List.pairwise_cons.mp hpw).1 y hy
    rcases List.mem_cons.mp he with heq | hmem
    · subst heq
      have hred : chooseLargest cfg inv base (e :: rest) =
          some (e, (can_dispense_change cfg inv ((e - base : ℤ) : ℚ)).2) := by
        rw [chooseLargest, if_neg (by omega), if_pos hfeas]
      rw [hred] at h
      simp only [Option.some.injEq, Prod.mk.injEq] at h
      omega
    · rw [chooseLargest] at h
      split at h
      · exact ih (List.pairwise_cons.mp hpw).2 d req h e hmem hbe hfeas
      · split at h
        · simp only [Option.some.injEq, Prod.mk.injEq] at h
          have hxd := h.1
          subst hxd
          exact hrest e hmem
        · exact ih (List.pairwise_cons.mp hpw).2 d req h e hmem hbe hfeas

/-- Case form of `find_best_payment_amount`: the early exact return when the
scan finds no positive dispensable change, otherwise the match on the
selection loop over the viable denominations. -/
theorem find_best_eq_cases (cfg : FeasibilityConfig) (inv : CoinInventory)
    (total_cost : ℚ) :
    find_best_payment_amount cfg inv total_cost =
      if scanBestChange cfg inv (maxPossibleChange cfg inv) = 0 then
        { amount := ((pythonRound total_cost : ℤ) : ℚ),
          change := 0,
          required_coins := (0, 0) }
      else
        match chooseLargest cfg inv (pythonRound total_cost)
            ((acceptedDenominations.filter (fun d =>
              pythonRound total_cost ≤ d ∧
              d ≤ pythonRound total_cost +
                (scanBestChange cfg inv (maxPossibleChange cfg inv) : ℤ))).reverse) with
        | none =>
          { amount := ((pythonRound total_cost : ℤ) : ℚ),
            change := 0,
            required_coins := (0, 0) }
        | some (d, req) =>
          { amount := (d : ℚ),
            change := ((d - pythonRound total_cost : ℤ) : ℚ),
            required_coins := req } := rfl

/-- Claim C1 amended: with base = round(total_cost) (Python banker's rounding,
which the source applies via `int(round(total_cost))` — not floor), the
function scans downward from max_possible_change taking the first (largest)
dispensable change B; it returns a payment D with change D - base where D is
the largest accepted denomination in [base, base + B] whose change is
dispensable, falling back to D = base (exact payment) when none qualifies;
consequently the returned amount is never below base and the returned change
is amount - base and always passes `can_dispense_change`. -/
theorem find_best_payment_amount_spec (cfg : FeasibilityConfig)
    (inv : CoinInventory) (total_cost : ℚ) (htc : 0 ≤ total_cost) :
    (can_dispense_change cfg inv
      ((scanBestChange cfg inv (maxPossibleChange cfg inv) : ℕ) : ℚ)).1 = true ∧
    scanBestChange cfg inv (maxPossibleChange cfg inv) ≤ maxPossibleChange cfg inv ∧
    (∀ c : ℕ, c ≤ maxPossibleChange cfg inv →
      (can_dispense_change cfg inv ((c : ℕ) : ℚ)).1 = true →
      c ≤ scanBestChange cfg inv (maxPossibleChange cfg inv)) ∧
    (∃ D : ℤ,
      (find_best_payment_amount cfg inv total_cost).amount = (D : ℚ) ∧
      (find_best_payment_amount cfg inv total_cost).change =
        ((D - pythonRound total_cost : ℤ) : ℚ) ∧
      pythonRound total_cost ≤ D ∧
      (can_dispense_change cfg inv ((D - pythonRound total_cost : ℤ) : ℚ)).1 = true ∧
      ((D ∈ acceptedDenominations ∧
          D ≤ pythonRound total_cost +
            (scanBestChange cfg inv (maxPossibleChange cfg inv) : ℤ)) ∨
        D = pythonRound total_cost) ∧
      (∀ e : ℤ, e ∈ acceptedDenominations →
        pythonRound total_cost ≤ e →
        e ≤ pythonRound total_cost +
          (scanBestChange cfg inv (maxPossibleChange cfg inv) : ℤ) →
        (can_dispense_change cfg inv ((e - pythonRound total_cost : ℤ) : ℚ)).1 = true →
        e ≤ D)) := by
  refine ⟨scanBestChange_feasible cfg inv _, scanBestChange_le cfg inv _,
    fun c hc hfeas => scanBestChange_greatest cfg inv _ c hc hfeas, ?_⟩
  by_cases hB0 : scanBestChange cfg inv (maxPossibleChange cfg inv) = 0
  · refine ⟨pythonRound total_cost, ?_, ?_, le_rfl, ?_, Or.inr rfl, ?_⟩
    · rw [find_best_eq_cases, if_pos hB0]
    · rw [find_best_eq_cases, if_pos hB0]
      simp
    · rw [sub_self, Int.cast_zero, can_dispense_change_zero]
    · intro e _ hbe hle _
      rw [hB0] at hle
      push_cast at hle
      omega
  · rw [find_best_eq_cases, if_neg hB0]
    rcases hch : chooseLargest cfg inv (pythonRound total_cost)
        ((acceptedDenominations.filter (fun d =>
          pythonRound total_cost ≤ d ∧
          d ≤ pythonRound total_cost +
            (scanBestChange cfg inv (maxPossibleChange cfg inv) : ℤ))).reverse)
      with _ | ⟨d, req⟩
    · refine ⟨pythonRound total_cost, rfl, by simp, le_rfl, ?_, Or.inr rfl, ?_⟩
      · rw [sub_self, Int.cast_zero, can_dispense_change_zero]
      · intro e he hbe hle hfeas
        have hmem : e ∈ (acceptedDenominations.filter (fun d =>
            pythonRound total_cost ≤ d ∧
            d ≤ pythonRound total_cost +
              (scanBestChange cfg inv (maxPossibleChange cfg inv) : ℤ))).reverse := by
          rw [List.mem_reverse, List.mem_filter]
          exact ⟨he, by simp [hbe, hle]⟩
        have hfalse := chooseLargest_none_spec cfg inv (pythonRound total_cost) _
          hch e hmem hbe
        rw [hfeas] at hfalse
        exact absurd hfalse (by simp)
    · have hspec := chooseLargest_some_spec cfg inv (pythonRound total_cost) _ d req hch
      have hdmem : d ∈ acceptedDenominations ∧
          d ≤ pythonRound total_cost +
            (scanBestChange cfg inv (maxPossibleChange cfg inv) : ℤ) := by
        have h1 := hspec.1
        rw [List.mem_reverse, List.mem_filter] at h1
        refine ⟨h1.1, ?_⟩
        have h2 := h1.2
        simp only [decide_eq_true_eq] at h2
        exact h2.2
      refine ⟨d, rfl, rfl, hspec.2.1, hspec.2.2.1, Or.inl hdmem, ?_⟩
      intro e he hbe hle hfeas
      have hpw : ((acceptedDenominations.filter (fun d =>
          pythonRound total_cost ≤ d ∧
          d ≤ pythonRound total_cost +
            (scanBestChange cfg inv (maxPossibleChange cfg inv) : ℤ))).reverse).Pairwise
            (fun a b => b ≤ a) := by
        rw [List.pairwise_reverse]
        exact List.Pairwise.filter _
          (by decide : acceptedDenominations.Pairwise (· ≤ ·))
      have hmem : e ∈ (acceptedDenominations.filter (fun d =>
          pythonRound total_cost ≤ d ∧
          d ≤ pythonRound total_cost +
            (scanBestChange cfg inv (maxPossibleChange cfg inv) : ℤ))).reverse := by
        rw [List.mem_reverse, List.mem_filter]
        exact ⟨he, by simp [hbe, hle]⟩
      exact chooseLargest_max cfg inv (pythonRound total_cost) _ hpw d req hch
        e hmem hbe hfeas

/-- Witness for C1 at total_cost = 23 with inventory {1: 100, 5: 100}. -/
theorem find_best_payment_amount_spec_witness :
    (0 : ℚ) ≤ 23 ∧
    ∃ D : ℤ,
      (find_best_payment_amount ⟨0, 0, 50⟩ ⟨100, 100⟩ 23).amount = (D : ℚ) ∧
      pythonRound 23 ≤ D := by
  obtain ⟨D, h1, _, h3, _⟩ :=
    (find_best_payment_amount_spec ⟨0, 0, 50⟩ ⟨100, 100⟩ 23 (by norm_num)).2.2.2
  exact ⟨by norm_num, D, h1, h3⟩

/-- Helper evaluation: Python's round takes 27/5 = 5.4 to 5. -/
theorem pythonRound_at_27_div_5 : pythonRound (27/5 : ℚ) = 5 := by
  have hfloor : ⌊(27/5 : ℚ)⌋ = 5 := by
    rw [Int.floor_eq_iff]
    norm_num
  simp only [pythonRound]
  rw [hfloor]
  norm_num

/-- Helper evaluation: at total_cost = 5.4 with inventory {1: 2, 5: 0} the
scan finds best change 2, ceiling 7, the only viable denomination is 5, whose
change relative to base = round(5.4) = 5 is 0 — so the function returns
amount 5 with change 0. -/
theorem find_best_at_fractional_cost :
    find_best_payment_amount ⟨0, 0, 50⟩ ⟨2, 0⟩ (27/5) =
      { amount := 5, change := 0, required_coins := (0, 0) } := by
  have hscan : scanBestChange ⟨0, 0, 50⟩ ⟨2, 0⟩
      (maxPossibleChange ⟨0, 0, 50⟩ ⟨2, 0⟩) = 2 := by
    rw [scanBestChange_eq_nat]; decide
  rw [find_best_eq_cases, pythonRound_at_27_div_5, hscan]
  norm_num [acceptedDenominations]
  have hc0 : chooseLargest ⟨0, 0, 50⟩ ⟨2, 0⟩ 5 [5] = some (5, (0, 0)) := by
    rw [chooseLargest, if_neg (by norm_num)]
    norm_num [can_dispense_change_zero]
  rw [hc0]
  norm_num

/-- Counterexample to claim C1 as stated: at total_cost = 5.4 (a value the
claim covers, since it quantifies over every total_cost ≥ 0) with inventory
{1: 2, 5: 0} and thresholds 0, the returned amount 5 is strictly below
total_cost, and the returned change 0 is not amount - total_cost: the source
measures everything against `int(round(total_cost))`, not floor(total_cost),
and its comparisons use that rounded base. -/
theorem find_best_below_total_cost :
    (find_best_payment_amount ⟨0, 0, 50⟩ ⟨2, 0⟩ (27/5)).amount < 27/5 ∧
    (find_best_payment_amount ⟨0, 0, 50⟩ ⟨2, 0⟩ (27/5)).change ≠
      (find_best_payment_amount ⟨0, 0, 50⟩ ⟨2, 0⟩ (27/5)).amount - 27/5 := by
  rw [find_best_at_fractional_cost]
  norm_num

end SSP
